import Mathlib

/-!
Verification of the bonding-curve trading core (`bonding_curves.py`,
`simulation.py`, `metrics.py`) of the curve-modelling repository.

The Python code works with IEEE doubles; the embedding models its arithmetic
over the real numbers `ℝ`, translating each function statement by statement.
Total real-valued functions stand in for `math.sqrt` / `np.log` / `np.exp`
(`Real.sqrt`, `Real.log`, `Real.exp`; on arguments outside the mathematical
domain the Python code would raise or produce a NaN, the Lean functions
return their junk value — all theorems below stay inside the domain).
Python `raise` inside `buy` / `sell` is modelled by an `Except` result paired
with the state at the moment the exception is thrown, so that statement order
(checks before mutations) is preserved observably.
-/

set_option maxHeartbeats 1000000

namespace CurveModel

noncomputable section

open scoped Classical

/-- Shape parameters of the four curve variants
(`LinearBondingCurve`, `ExponentialBondingCurve`,
`PolynomialBondingCurve`, `LogarithmicBondingCurve`). -/
inductive Shape where
  | linear (k multiplier : ℝ)
  | exponential (a b : ℝ)
  | polynomial (coefficients : List ℝ)
  | logarithmic (a b : ℝ)

/-- Constructor parameters shared by every curve
(`BondingCurve.__init__`): `total_supply`, `graduation_threshold`,
plus the shape parameters. -/
structure Curve where
  shape : Shape
  totalSupply : ℝ
  graduationThreshold : ℝ

/-- Mutable trading state of a curve instance:
`tokens_sold`, `virtual_raised`, `graduated`. -/
structure CurveState where
  tokensSold : ℝ
  virtualRaised : ℝ
  graduated : Bool

/-- `PolynomialBondingCurve.get_price` loop body: `sum(coef * supply**i)`,
accumulated with the running index `i`. -/
def polyPrice : List ℝ → ℝ → ℕ → ℝ
  | [], _, _ => 0
  | coef :: rest, s, i => coef * s ^ i + polyPrice rest s (i + 1)

/-- `PolynomialBondingCurve.calculate_cost` loop body:
`sum(coef / (i+1) * (to**(i+1) - from**(i+1)))`. -/
def polyCost : List ℝ → ℝ → ℝ → ℕ → ℝ
  | [], _, _, _ => 0
  | coef :: rest, f, t, i =>
      coef / (i + 1) * (t ^ (i + 1) - f ^ (i + 1)) + polyCost rest f t (i + 1)

/-- Antiderivative used by `LogarithmicBondingCurve.calculate_cost`:
`a * ((s + b) * ln(s + b) - (s + b))`. -/
def logAntideriv (a b s : ℝ) : ℝ :=
  a * ((s + b) * Real.log (s + b) - (s + b))

/-- `get_price` of each variant, translated branch by branch. -/
def get_price (c : Curve) (supply : ℝ) : ℝ :=
  match c.shape with
  | .linear k multiplier =>
      if supply = 0 then 0.0001 else k * supply / multiplier
  | .exponential a b => a * Real.exp (b * supply)
  | .polynomial coefficients => max 0.0001 (polyPrice coefficients supply 0)
  | .logarithmic a b => a * Real.log (supply + b)

/-- `calculate_cost` of each variant, translated branch by branch
(Linear and Polynomial clamp with `max(0, cost)`, Exponential handles
`b = 0` separately, Logarithmic subtracts antiderivative values). -/
def calculate_cost (c : Curve) (fromSupply toSupply : ℝ) : ℝ :=
  match c.shape with
  | .linear k multiplier =>
      max 0 ((k / (2 * multiplier)) * (toSupply ^ 2 - fromSupply ^ 2))
  | .exponential a b =>
      if b = 0 then a * (toSupply - fromSupply)
      else (a / b) * (Real.exp (b * toSupply) - Real.exp (b * fromSupply))
  | .polynomial coefficients =>
      max 0 (polyCost coefficients fromSupply toSupply 0)
  | .logarithmic a b => logAntideriv a b toSupply - logAntideriv a b fromSupply

lemma ceil_half_lt_ceil {t : ℝ} (ht : 1 < t) : ⌈t / 2⌉₊ < ⌈t⌉₊ := by
  have h2 : 1 < ⌈t⌉₊ := Nat.lt_ceil.mpr (by exact_mod_cast ht)
  have hle : t ≤ (⌈t⌉₊ : ℝ) := Nat.le_ceil t
  have hcast : ((⌈t⌉₊ - 1 : ℕ) : ℝ) = (⌈t⌉₊ : ℝ) - 1 := by
    have : (1 : ℕ) ≤ ⌈t⌉₊ := le_of_lt h2
    push_cast [Nat.cast_sub this]
    ring
  have hhalf : t / 2 ≤ ((⌈t⌉₊ - 1 : ℕ) : ℝ) := by
    rw [hcast]
    have : (2 : ℝ) ≤ (⌈t⌉₊ : ℝ) := by exact_mod_cast h2
    linarith
  have : ⌈t / 2⌉₊ ≤ ⌈t⌉₊ - 1 := Nat.ceil_le.mpr hhalf
  omega

/-- The bisection loop shared by `PolynomialBondingCurve._calculate_tokens_out`
and `LogarithmicBondingCurve._calculate_tokens_out`: while
`high - low > epsilon` (with `epsilon = 0.001`), evaluate the cost at the
midpoint and move the half-interval boundary; return `low` on exit.
`f` is `lambda d: calculate_cost(tokens_sold, tokens_sold + d)`. -/
def bisect (f : ℝ → ℝ) (x : ℝ) (low high : ℝ) : ℝ :=
  if h : (1 : ℝ) / 1000 < high - low then
    if f ((low + high) / 2) < x then bisect f x ((low + high) / 2) high
    else bisect f x low ((low + high) / 2)
  else low
termination_by ⌈(high - low) * 1000⌉₊
decreasing_by
  · have h1 : 1 < (high - low) * 1000 := by linarith
    have heq : (high - (low + high) / 2) * 1000 = (high - low) * 1000 / 2 := by ring
    rw [heq]
    exact ceil_half_lt_ceil h1
  · have h1 : 1 < (high - low) * 1000 := by linarith
    have heq : ((low + high) / 2 - low) * 1000 = (high - low) * 1000 / 2 := by ring
    rw [heq]
    exact ceil_half_lt_ceil h1

/-- `_calculate_tokens_out` of each variant: closed-form quadratic inverse
for Linear, closed-form logarithm inverse for Exponential (with the `b = 0`
degenerate branch), bisection over `[0, total_supply - tokens_sold]` for
Polynomial and Logarithmic. `ts` is the instance's current `tokens_sold`. -/
def calcTokensOut (c : Curve) (ts virtualAmount : ℝ) : ℝ :=
  match c.shape with
  | .linear k multiplier =>
      Real.sqrt (2 * virtualAmount * multiplier / k + ts ^ 2) - ts
  | .exponential a b =>
      if b = 0 then virtualAmount / a
      else Real.log (virtualAmount * b / a + Real.exp (b * ts)) / b - ts
  | .polynomial _ =>
      bisect (fun d => calculate_cost c ts (ts + d)) virtualAmount 0
        (c.totalSupply - ts)
  | .logarithmic _ _ =>
      bisect (fun d => calculate_cost c ts (ts + d)) virtualAmount 0
        (c.totalSupply - ts)

/-- Error taxonomy of the trading protocol: `GraduatedError`
("Curve has graduated") and `InvalidAmountError` (non-positive sell amount,
or sell amount exceeding tokens sold). -/
inductive TradeError where
  | graduatedErr
  | invalidAmountErr
deriving DecidableEq

/-- `BondingCurve.buy`, statement by statement.  The returned pair carries
the `Except` result together with the state at method exit; on an exception
the state is the one at the moment of the `raise`. -/
def buy (c : Curve) (st : CurveState) (virtualAmount : ℝ) :
    Except TradeError (ℝ × ℝ) × CurveState :=
  if st.graduated then (.error .graduatedErr, st)
  else
    let t0 := calcTokensOut c st.tokensSold virtualAmount
    let tokensOut :=
      if c.totalSupply < st.tokensSold + t0 then c.totalSupply - st.tokensSold
      else t0
    let amount :=
      if c.totalSupply < st.tokensSold + t0 then
        calculate_cost c st.tokensSold c.totalSupply
      else virtualAmount
    let actualPrice := if 0 < tokensOut then amount / tokensOut else 0
    let tokensSold' := st.tokensSold + tokensOut
    let virtualRaised' := st.virtualRaised + amount
    let graduated' :=
      if c.graduationThreshold ≤ virtualRaised' then true else st.graduated
    (.ok (tokensOut, actualPrice), ⟨tokensSold', virtualRaised', graduated'⟩)

/-- `BondingCurve.sell`, statement by statement (same conventions as `buy`). -/
def sell (c : Curve) (st : CurveState) (tokenAmount : ℝ) :
    Except TradeError (ℝ × ℝ) × CurveState :=
  if st.graduated then (.error .graduatedErr, st)
  else if tokenAmount ≤ 0 then (.error .invalidAmountErr, st)
  else if st.tokensSold < tokenAmount then (.error .invalidAmountErr, st)
  else
    let newTokensSold := st.tokensSold - tokenAmount
    let virtualOut := calculate_cost c newTokensSold st.tokensSold
    let actualPrice := if 0 < tokenAmount then virtualOut / tokenAmount else 0
    (.ok (virtualOut, actualPrice),
      ⟨newTokensSold, st.virtualRaised - virtualOut, st.graduated⟩)

/-- Valid constructor parameters in the sense of the specification's
error-handling section: positive `totalSupply` and `graduationThreshold`, and
positive curve-specific parameters (the exponential exponent `b` may be zero,
a degenerate case the code handles explicitly; polynomial coefficients are
required non-negative). -/
def Valid (c : Curve) : Prop :=
  0 < c.totalSupply ∧ 0 < c.graduationThreshold ∧
    match c.shape with
    | .linear k multiplier => 0 < k ∧ 0 < multiplier
    | .exponential a b => 0 < a ∧ 0 ≤ b
    | .polynomial coefficients => ∀ coef ∈ coefficients, 0 ≤ coef
    | .logarithmic a b => 0 < a ∧ 0 < b

/-- Trade direction recorded in a `Trade`. -/
inductive TradeType where
  | buyTrade
  | sellTrade
deriving DecidableEq

/-- The `Trade` dataclass of `simulation.py`. -/
structure Trade where
  tradeType : TradeType
  virtualAmount : ℝ
  tokenAmount : ℝ
  price : ℝ
  slippage : ℝ
  totalSupply : ℝ
  virtualRaised : ℝ
  timestamp : ℕ

/-- The `SimulationResult` dataclass of `simulation.py`. -/
structure SimulationResult where
  trades : List Trade
  graduated : Bool
  finalPrice : ℝ
  finalTokensSold : ℝ
  finalVirtualRaised : ℝ
  totalVolume : ℝ
  taxCollected : ℝ

/-- The three random draws one loop iteration of `run_simulation` consumes:
the `random.random()` uniform for the sell decision, the `random.random()`
uniform for the whale decision, and the standard-normal value `z` behind the
`np.random.normal(mean, std)` call (whose result is `mean + std * z`). -/
structure Draw where
  sellRoll : ℝ
  whaleRoll : ℝ
  z : ℝ

/-- Trade-stream parameters of `run_simulation` plus the engine's tax rate. -/
structure SimParams where
  avgTradeSize : ℝ
  tradeSizeStd : ℝ
  sellProbability : ℝ
  whaleProbability : ℝ
  whaleMultiplier : ℝ
  taxRate : ℝ

/-- Loop-carried state of `run_simulation`: the curve's trading state plus
the accumulators `trades`, `total_volume`, `tax_collected`. -/
structure SimAcc where
  st : CurveState
  trades : List Trade
  totalVolume : ℝ
  taxCollected : ℝ

/-- The sell branch of the `run_simulation` loop body (iteration `i`,
already-drawn gross size `size`): price-convert the size, cap at 10% of
`tokens_sold`, skip non-positive amounts, execute `sell`, tax the proceeds,
record the trade; a trading error skips the iteration with no state change. -/
def sellStep (c : Curve) (p : SimParams) (i : ℕ) (acc : SimAcc) (size : ℝ) :
    SimAcc :=
  let currentPrice := get_price c acc.st.tokensSold
  if 0 < currentPrice then
    let tokenAmount := min (size / currentPrice) (acc.st.tokensSold * 0.1)
    if 0 < tokenAmount then
      let expectedPrice := get_price c acc.st.tokensSold
      match sell c acc.st tokenAmount with
      | (.error _, _) => acc
      | (.ok (virtualOut, actualPrice), st') =>
        let taxAmount := virtualOut * p.taxRate
        let netVirtualOut := virtualOut - taxAmount
        let slippage :=
          if 0 < expectedPrice then
            (expectedPrice - actualPrice) / expectedPrice
          else 0
        let trade : Trade :=
          ⟨.sellTrade, netVirtualOut, tokenAmount, actualPrice, slippage,
            st'.tokensSold, st'.virtualRaised, i⟩
        ⟨st', acc.trades ++ [trade], acc.totalVolume + virtualOut,
          acc.taxCollected + taxAmount⟩
    else acc
  else acc

/-- The buy branch of the `run_simulation` loop body: tax the spend up front
(the tax is kept even when `buy` raises), execute `buy` on the net amount,
record the trade; a trading error skips the iteration. -/
def buyStep (c : Curve) (p : SimParams) (i : ℕ) (acc : SimAcc) (size : ℝ) :
    SimAcc :=
  let taxAmount := size * p.taxRate
  let netTradeSize := size - taxAmount
  let expectedPrice := get_price c acc.st.tokensSold
  match buy c acc.st netTradeSize with
  | (.error _, _) =>
      ⟨acc.st, acc.trades, acc.totalVolume, acc.taxCollected + taxAmount⟩
  | (.ok (tokensOut, actualPrice), st') =>
    let slippage :=
      if 0 < expectedPrice then
        (actualPrice - expectedPrice) / expectedPrice
      else 0
    let trade : Trade :=
      ⟨.buyTrade, size, tokensOut, actualPrice, slippage,
        st'.tokensSold, st'.virtualRaised, i⟩
    ⟨st', acc.trades ++ [trade], acc.totalVolume + size,
      acc.taxCollected + taxAmount⟩

/-- One iteration of the `run_simulation` loop: decide direction and whale
status from the uniform draws, form the gross size
`max(0.1, |np.random.normal(mean, std)|)`, and dispatch to the branch. -/
def simStep (c : Curve) (p : SimParams) (d : Draw) (i : ℕ) (acc : SimAcc) :
    SimAcc :=
  let isSell := d.sellRoll < p.sellProbability ∧ 0 < acc.st.tokensSold
  let rawSize :=
    if d.whaleRoll < p.whaleProbability then
      |p.avgTradeSize * p.whaleMultiplier + p.tradeSizeStd * p.whaleMultiplier * d.z|
    else |p.avgTradeSize + p.tradeSizeStd * d.z|
  let size := max 0.1 rawSize
  if isSell then sellStep c p i acc size else buyStep c p i acc size

/-- The `for i in range(num_trades)` loop of `run_simulation`, with its
`if curve.graduated: break` check at the top of each iteration.  `i` is the
current index, `fuel` the number of remaining iterations. -/
def simLoop (c : Curve) (p : SimParams) (draws : ℕ → Draw) :
    ℕ → ℕ → SimAcc → SimAcc
  | _, 0, acc => acc
  | i, fuel + 1, acc =>
      if acc.st.graduated then acc
      else simLoop c p draws (i + 1) fuel (simStep c p (draws i) i acc)

/-- `SimulationEngine.run_simulation`: reset the curve state, run the trade
loop, and package the final state into a `SimulationResult`. -/
def run_simulation (c : Curve) (p : SimParams) (numTrades : ℕ)
    (draws : ℕ → Draw) : SimulationResult :=
  let acc := simLoop c p draws 0 numTrades ⟨⟨0, 0, false⟩, [], 0, 0⟩
  ⟨acc.trades, acc.st.graduated, get_price c acc.st.tokensSold,
    acc.st.tokensSold, acc.st.virtualRaised, acc.totalVolume,
    acc.taxCollected⟩

/-- `np.mean` over a Python list: sum divided by length. -/
def listMean (l : List ℝ) : ℝ := l.sum / l.length

/-- Python's builtin `max` over a list (meaningful for non-empty lists). -/
def listMax (l : List ℝ) : ℝ := l.foldl max (l.headD 0)

/-- `np.diff`: consecutive differences `x[i+1] - x[i]`. -/
def listDiff (l : List ℝ) : List ℝ := l.tail.zipWith (fun a b => a - b) l

/-- `np.std`: population standard deviation. -/
def listStd (l : List ℝ) : ℝ :=
  Real.sqrt (listMean (l.map fun v => (v - listMean l) ^ 2))

/-- The metric dictionary returned by `calculate_metrics`. -/
structure Metrics where
  volatility : ℝ
  avgSlippage : ℝ
  maxSlippage : ℝ
  liquidityDepth : ℝ
  priceImpact : ℝ
  marketEfficiency : ℝ
  graduationEfficiency : ℝ

/-- `calculate_metrics` of `metrics.py`, translated statement by statement
(the empty-trades early return yields the all-zero dictionary). -/
def calculate_metrics (result : SimulationResult) : Metrics :=
  match result.trades with
  | [] => ⟨0, 0, 0, 0, 0, 0, 0⟩
  | t0 :: _ =>
    let trades := result.trades
    let prices := trades.map (·.price)
    let volatility :=
      if 1 < prices.length then
        let logReturns := listDiff (prices.map Real.log)
        if 0 < logReturns.length then listStd logReturns else 0
      else 0
    let slippages := trades.map (·.slippage)
    let avgSlippage := listMean slippages
    let maxSlippage := listMax slippages
    let lowSlippageTrades := trades.filter fun t => |t.slippage| < 0.01
    let liquidityDepth :=
      if trades ≠ [] then
        (lowSlippageTrades.length : ℝ) / (trades.length : ℝ) * 100
      else 0
    let priceImpact :=
      if 0 < result.totalVolume ∧ 1 < prices.length then
        (prices.getLastD 0 - prices.headD 0) / result.totalVolume
      else 0
    let p0 := prices.headD 0
    let priceDeviations := trades.filterMap fun t =>
      if 0 < t.virtualAmount then
        some |(if 0 < p0 then (t.price - p0) / p0 else 0) - t.slippage|
      else none
    let marketEfficiency :=
      if priceDeviations ≠ [] then 1 - listMean priceDeviations else 1
    let graduationEfficiency :=
      if result.graduated then 1
      else
        min 1 (result.finalVirtualRaised /
          (t0.virtualRaised * (trades.length : ℝ)))
    ⟨volatility, avgSlippage, maxSlippage, liquidityDepth, priceImpact,
      marketEfficiency, graduationEfficiency⟩

/-- The market-efficiency formula as the specification words it:
`1 - mean(|actualReturnFromFirstPrice - recordedSlippage|)` over the trades
with positive currency amount, defaulting to `1` when there is no such trade.
Stated independently of `calculate_metrics` for comparison with it. -/
def marketEfficiencySpec (result : SimulationResult) : ℝ :=
  let firstPrice := (result.trades.map (·.price)).headD 0
  let positiveTrades := result.trades.filter fun t => 0 < t.virtualAmount
  if positiveTrades = [] then 1
  else
    1 - listMean (positiveTrades.map fun t =>
      |(if 0 < firstPrice then (t.price - firstPrice) / firstPrice else 0) -
        t.slippage|)

/-- `applyBuys` folds a sequence of `buy` calls over a state, keeping the
state a failed call returns (Python: the exception leaves the object as it
was). -/
def applyBuys (c : Curve) : CurveState → List ℝ → CurveState
  | st, [] => st
  | st, x :: xs => applyBuys c (buy c st x).2 xs

/-- Concrete linear curve used by the witnesses:
`k = 2`, `multiplier = 1`, `totalSupply = 100`,
`graduationThreshold = 1000`. -/
def Clin : Curve := ⟨.linear 2 1, 100, 1000⟩

lemma Clin_valid : Valid Clin := by
  simp only [Valid, Clin]
  norm_num

lemma buy_tokensSold_le (c : Curve) (st : CurveState) (x : ℝ)
    (h : st.tokensSold ≤ c.totalSupply) :
    (buy c st x).2.tokensSold ≤ c.totalSupply := by
  by_cases hg : st.graduated
  · simpa [buy, hg] using h
  · simp only [buy, hg, if_false, Bool.false_eq_true]
    split_ifs with hc <;> linarith

end

end CurveModel

namespace CurveModel

noncomputable section

open scoped Classical

/-- C10: buy and sell are atomic on error — whenever `buy` or `sell` raises
(`GraduatedError`, or `InvalidAmountError` for `sell`), the returned state
(`tokens_sold`, `virtual_raised`, `graduated`) is exactly the pre-call state:
every raising check happens before any state mutation. -/
theorem trade_error_atomic_thm (c : Curve) (st : CurveState) (x amt : ℝ) :
    (∀ e, (buy c st x).1 = .error e → (buy c st x).2 = st) ∧
    (∀ e, (sell c st amt).1 = .error e → (sell c st amt).2 = st) := by
  constructor
  · intro e h
    by_cases hg : st.graduated <;> simp [buy, hg] at h ⊢
  · intro e h
    unfold sell at h ⊢
    split_ifs at h ⊢ <;> simp_all

/-- Witness for C10 at a concrete graduated state. -/
theorem trade_error_atomic_witness :
    (buy Clin ⟨3, 5, true⟩ 1).1 = .error .graduatedErr ∧
    (buy Clin ⟨3, 5, true⟩ 1).2 = ⟨3, 5, true⟩ ∧
    (sell Clin ⟨3, 5, false⟩ 7).1 = .error .invalidAmountErr ∧
    (sell Clin ⟨3, 5, false⟩ 7).2 = ⟨3, 5, false⟩ := by
  refine ⟨by simp [buy], ?_, by simp [sell]; norm_num, ?_⟩
  · exact (trade_error_atomic_thm Clin ⟨3, 5, true⟩ 1 1).1 .graduatedErr
      (by simp [buy])
  · exact (trade_error_atomic_thm Clin ⟨3, 5, false⟩ 1 7).2 .invalidAmountErr
      (by simp [sell]; norm_num)

/-- C3: the graduated flag transitions false→true at most once and never
back — a graduated state makes both `buy` and `sell` fail with
`GraduatedError` leaving the state unchanged, `sell` never changes the flag,
and a successful `buy` sets it exactly when the new `virtual_raised` reaches
`graduation_threshold`. -/
theorem graduation_monotone_thm (c : Curve) :
    (∀ st x, st.graduated = true → buy c st x = (.error .graduatedErr, st)) ∧
    (∀ st amt, st.graduated = true →
      sell c st amt = (.error .graduatedErr, st)) ∧
    (∀ st amt, (sell c st amt).2.graduated = st.graduated) ∧
    (∀ st x res st', st.graduated = false → buy c st x = (.ok res, st') →
      (st'.graduated = true ↔ c.graduationThreshold ≤ st'.virtualRaised)) := by
  refine ⟨?_, ?_, ?_, ?_⟩
  · intro st x hg
    simp [buy, hg]
  · intro st amt hg
    simp [sell, hg]
  · intro st amt
    unfold sell
    split_ifs <;> simp
  · intro st x res st' hg hbuy
    simp only [buy, hg, Bool.false_eq_true, if_false, Prod.mk.injEq] at hbuy
    obtain ⟨-, h2⟩ := hbuy
    subst h2
    split_ifs <;> simp_all

/-- Witness for C3 at concrete states. -/
theorem graduation_monotone_witness :
    buy Clin ⟨3, 5, true⟩ 1 = (.error .graduatedErr, ⟨3, 5, true⟩) ∧
    sell Clin ⟨3, 5, true⟩ 1 = (.error .graduatedErr, ⟨3, 5, true⟩) ∧
    (sell Clin ⟨3, 5, false⟩ 1).2.graduated = false := by
  refine ⟨(graduation_monotone_thm Clin).1 ⟨3, 5, true⟩ 1 rfl,
    (graduation_monotone_thm Clin).2.1 ⟨3, 5, true⟩ 1 rfl, ?_⟩
  exact (graduation_monotone_thm Clin).2.2.1 ⟨3, 5, false⟩ 1

/-- C2: `tokens_sold` never exceeds `total_supply` over any sequence of buys,
and a buy that would overshoot is clamped to the remaining supply with the
spent currency recomputed as `calculate_cost(tokens_sold, total_supply)`. -/
theorem supply_bound_thm (c : Curve) :
    (∀ st xs, st.tokensSold ≤ c.totalSupply →
      (applyBuys c st xs).tokensSold ≤ c.totalSupply) ∧
    (∀ st x, st.graduated = false →
      c.totalSupply < st.tokensSold + calcTokensOut c st.tokensSold x →
      ∃ p g, buy c st x = (.ok (c.totalSupply - st.tokensSold, p),
        ⟨c.totalSupply,
          st.virtualRaised + calculate_cost c st.tokensSold c.totalSupply,
          g⟩)) := by
  constructor
  · intro st xs
    induction xs generalizing st with
    | nil => intro h; simpa [applyBuys] using h
    | cons x xs ih =>
      intro h
      exact ih _ (buy_tokensSold_le c st x h)
  · intro st x hg hclamp
    refine ⟨if 0 < c.totalSupply - st.tokensSold then
        calculate_cost c st.tokensSold c.totalSupply /
          (c.totalSupply - st.tokensSold)
      else 0,
      if c.graduationThreshold ≤
          st.virtualRaised + calculate_cost c st.tokensSold c.totalSupply then
        true
      else st.graduated, ?_⟩
    simp [buy, hg, if_pos hclamp, add_sub_cancel]

/-- Witness for C2 at a concrete state and buy sequence. -/
theorem supply_bound_witness :
    (applyBuys Clin ⟨0, 0, false⟩ [1, 2, 3]).tokensSold ≤ 100 ∧
    (∃ p g, buy Clin ⟨100, 0, false⟩ 1 = (.ok (100 - 100, p),
      ⟨100, 0 + calculate_cost Clin 100 100, g⟩)) := by
  constructor
  · exact (supply_bound_thm Clin).1 ⟨0, 0, false⟩ [1, 2, 3] (by norm_num [Clin])
  · exact (supply_bound_thm Clin).2 ⟨100, 0, false⟩ 1 rfl
      (by
        have hgoal : (100 : ℝ) < Real.sqrt (2 * 1 * 1 / 2 + 100 ^ 2) := by
          rw [show (2 : ℝ) * 1 * 1 / 2 + 100 ^ 2 = 10001 by norm_num,
            Real.lt_sqrt (by norm_num)]
          norm_num
        simp only [calcTokensOut, Clin]
        linarith)

/-- C8: `sell` fails with `GraduatedError` on a graduated curve; on a
non-graduated curve it fails with `InvalidAmountError` exactly when the
amount is non-positive or exceeds `tokens_sold`, and otherwise returns
`(currencyOut, currencyOut / tokenAmount)` with
`currencyOut = calculate_cost(tokens_sold - tokenAmount, tokens_sold)`. -/
theorem sell_spec_thm (c : Curve) (st : CurveState) (amt : ℝ) :
    (st.graduated = true → sell c st amt = (.error .graduatedErr, st)) ∧
    (st.graduated = false → (amt ≤ 0 ∨ st.tokensSold < amt) →
      sell c st amt = (.error .invalidAmountErr, st)) ∧
    (st.graduated = false → 0 < amt → amt ≤ st.tokensSold →
      sell c st amt =
        (.ok (calculate_cost c (st.tokensSold - amt) st.tokensSold,
            calculate_cost c (st.tokensSold - amt) st.tokensSold / amt),
          ⟨st.tokensSold - amt,
            st.virtualRaised -
              calculate_cost c (st.tokensSold - amt) st.tokensSold,
            st.graduated⟩)) := by
  refine ⟨?_, ?_, ?_⟩
  · intro hg
    simp [sell, hg]
  · intro hg hbad
    rcases hbad with h | h
    · simp [sell, hg, h]
    · by_cases h0 : amt ≤ 0
      · simp [sell, hg, h0]
      · simp [sell, hg, h0, h]
  · intro hg hpos hle
    have h0 : ¬ amt ≤ 0 := not_le.mpr hpos
    have h1 : ¬ st.tokensSold < amt := not_lt.mpr hle
    simp [sell, hg, h0, h1, hpos]

/-- Witness for C8: one instance of each of the three cases. -/
theorem sell_spec_witness :
    sell Clin ⟨3, 5, true⟩ 1 = (.error .graduatedErr, ⟨3, 5, true⟩) ∧
    sell Clin ⟨3, 5, false⟩ 7 = (.error .invalidAmountErr, ⟨3, 5, false⟩) ∧
    sell Clin ⟨3, 5, false⟩ 1 =
      (.ok (calculate_cost Clin 2 3, calculate_cost Clin 2 3 / 1),
        ⟨2, 5 - calculate_cost Clin 2 3, false⟩) := by
  refine ⟨(sell_spec_thm Clin ⟨3, 5, true⟩ 1).1 rfl,
    (sell_spec_thm Clin ⟨3, 5, false⟩ 7).2.1 rfl (Or.inr (by norm_num)), ?_⟩
  have h := (sell_spec_thm Clin ⟨3, 5, false⟩ 1).2.2 rfl (by norm_num)
    (by norm_num)
  norm_num at h
  convert h using 3 <;> norm_num

/-- Logarithmic curve with positive parameters `a = 1`, `b = 1/2`:
all constructor parameters are valid (positive), yet the price at zero
supply is `ln(1/2) < 0`. -/
def ClogBad : Curve := ⟨.logarithmic 1 (1 / 2), 1, 1⟩

/-- C1 counterexample: a Logarithmic curve with valid (positive) constructor
parameters whose `get_price(0)` is strictly negative, contradicting the
claimed positive price floor. -/
theorem log_price_negative_cex :
    Valid ClogBad ∧ get_price ClogBad 0 < 0 := by
  constructor
  · simp only [Valid, ClogBad]
    norm_num
  · simp only [get_price, ClogBad, one_mul, zero_add]
    exact Real.log_neg (by norm_num) (by norm_num)

/-- C1 amended: for valid parameters, `get_price(s)` is strictly positive for
every supply `s ≥ 0` on the Linear, Exponential and Polynomial variants; on
the Logarithmic variant it is strictly positive provided `s + b > 1`
(a Logarithmic curve with `0 < b ≤ 1` can price at zero or below near
`s = 0`, as the counterexample shows). -/
theorem price_positive_amended (c : Curve) (hv : Valid c) (s : ℝ)
    (hs : 0 ≤ s)
    (hlog : ∀ a b, c.shape = .logarithmic a b → 1 < s + b) :
    0 < get_price c s := by
  obtain ⟨-, -, hshape⟩ := hv
  unfold get_price
  cases hc : c.shape with
  | linear k multiplier =>
    rw [hc] at hshape
    obtain ⟨hk, hm⟩ := hshape
    split_ifs with h
    · norm_num
    · exact div_pos (mul_pos hk (lt_of_le_of_ne hs (Ne.symm h))) hm
  | exponential a b =>
    rw [hc] at hshape
    exact mul_pos hshape.1 (Real.exp_pos _)
  | polynomial coefficients =>
    exact lt_max_of_lt_left (by norm_num)
  | logarithmic a b =>
    rw [hc] at hshape
    exact mul_pos hshape.1 (Real.log_pos (hlog a b hc))

/-- Witness for C1 at the concrete linear curve and supply 5. -/
theorem price_positive_witness : 0 < get_price Clin 5 :=
  price_positive_amended Clin Clin_valid 5 (by norm_num)
    (by intro a b h; simp [Clin] at h)

lemma polyCost_self (coefficients : List ℝ) (s : ℝ) (i : ℕ) :
    polyCost coefficients s s i = 0 := by
  induction coefficients generalizing i with
  | nil => simp [polyCost]
  | cons coef rest ih => simp [polyCost, ih]

lemma polyCost_append_interval (coefficients : List ℝ) (u v w : ℝ) (i : ℕ) :
    polyCost coefficients u v i + polyCost coefficients v w i =
      polyCost coefficients u w i := by
  induction coefficients generalizing i with
  | nil => simp [polyCost]
  | cons coef rest ih =>
    simp only [polyCost]
    rw [← ih (i + 1)]
    ring

lemma polyCost_nonneg (coefficients : List ℝ)
    (h : ∀ coef ∈ coefficients, 0 ≤ coef) (u v : ℝ) (h0 : 0 ≤ u)
    (huv : u ≤ v) (i : ℕ) : 0 ≤ polyCost coefficients u v i := by
  induction coefficients generalizing i with
  | nil => simp [polyCost]
  | cons coef rest ih =>
    simp only [polyCost]
    have hterm : 0 ≤ coef / (i + 1) * (v ^ (i + 1) - u ^ (i + 1)) := by
      apply mul_nonneg
      · apply div_nonneg (h coef (by simp)) (by positivity)
      · have := pow_le_pow_left₀ h0 huv (i + 1)
        linarith
    have := ih (fun coef hm => h coef (by simp [hm])) (i + 1)
    linarith

lemma cost_self (c : Curve) (s : ℝ) : calculate_cost c s s = 0 := by
  cases hc : c.shape <;> simp [calculate_cost, hc, polyCost_self]

/-- C6: for every valid curve, `calculate_cost(s, s) = 0` at every supply,
and cost is additive over adjacent supply intervals
`0 ≤ u ≤ v ≤ w ≤ totalSupply` (exactly, in the real-number model). -/
theorem cost_additivity_thm (c : Curve) (hv : Valid c) (u v w : ℝ)
    (h0 : 0 ≤ u) (huv : u ≤ v) (hvw : v ≤ w) (hwT : w ≤ c.totalSupply) :
    (∀ s, calculate_cost c s s = 0) ∧
    calculate_cost c u v + calculate_cost c v w = calculate_cost c u w := by
  refine ⟨cost_self c, ?_⟩
  obtain ⟨-, -, hshape⟩ := hv
  cases hc : c.shape with
  | linear k multiplier =>
    rw [hc] at hshape
    obtain ⟨hk, hm⟩ := hshape
    simp only [calculate_cost, hc]
    have hcoef : 0 ≤ k / (2 * multiplier) := by positivity
    have huv2 : u ^ 2 ≤ v ^ 2 := pow_le_pow_left₀ h0 huv 2
    have hvw2 : v ^ 2 ≤ w ^ 2 := pow_le_pow_left₀ (h0.trans huv) hvw 2
    rw [max_eq_right (by nlinarith), max_eq_right (by nlinarith),
      max_eq_right (by nlinarith)]
    ring
  | exponential a b =>
    simp only [calculate_cost, hc]
    split_ifs <;> ring
  | polynomial coefficients =>
    rw [hc] at hshape
    simp only [calculate_cost, hc]
    rw [max_eq_right (polyCost_nonneg _ hshape u v h0 huv 0),
      max_eq_right (polyCost_nonneg _ hshape v w (h0.trans huv) hvw 0),
      max_eq_right (polyCost_nonneg _ hshape u w h0 (huv.trans hvw) 0)]
    exact polyCost_append_interval coefficients u v w 0
  | logarithmic a b =>
    simp only [calculate_cost, hc]
    ring

/-- Witness for C6 at the concrete linear curve over supplies 1 ≤ 2 ≤ 3. -/
theorem cost_additivity_witness :
    (∀ s, calculate_cost Clin s s = 0) ∧
    calculate_cost Clin 1 2 + calculate_cost Clin 2 3 =
      calculate_cost Clin 1 3 :=
  cost_additivity_thm Clin Clin_valid 1 2 3 (by norm_num) (by norm_num)
    (by norm_num) (by norm_num [Clin])

/-- Bisection bracket invariant: starting from an interval whose endpoints
bracket the target value `x`, the loop exits with a lower point whose image
is still at most `x`, and an upper point at most `0.001` above it whose
image is at least `x`. -/
lemma bisect_spec_aux (f : ℝ → ℝ) (x : ℝ) :
    ∀ n low high, ⌈(high - low) * 1000⌉₊ ≤ n → low ≤ high → f low ≤ x →
      x ≤ f high →
      f (bisect f x low high) ≤ x ∧
      ∃ hi, bisect f x low high ≤ hi ∧
        hi ≤ bisect f x low high + 1 / 1000 ∧ x ≤ f hi := by
  intro n
  induction n with
  | zero =>
    intro low high hn hle hlow hhigh
    have hw : ¬ ((1 : ℝ) / 1000 < high - low) := by
      intro hcontra
      have h1 : 1 < (high - low) * 1000 := by linarith
      have : 0 < ⌈(high - low) * 1000⌉₊ := Nat.lt_ceil.mpr (by
        push_cast
        linarith)
      omega
    rw [bisect, dif_neg hw]
    exact ⟨hlow, high, hle, by linarith [not_lt.mp hw], hhigh⟩
  | succ n ih =>
    intro low high hn hle hlow hhigh
    rw [bisect]
    split_ifs with hw hmid
    · have hdec : ⌈(high - (low + high) / 2) * 1000⌉₊ <
          ⌈(high - low) * 1000⌉₊ := by
        have h1 : 1 < (high - low) * 1000 := by linarith
        rw [show (high - (low + high) / 2) * 1000 =
          (high - low) * 1000 / 2 by ring]
        exact ceil_half_lt_ceil h1
      exact ih ((low + high) / 2) high (by omega) (by linarith)
        (le_of_lt hmid) hhigh
    · have hdec : ⌈((low + high) / 2 - low) * 1000⌉₊ <
          ⌈(high - low) * 1000⌉₊ := by
        have h1 : 1 < (high - low) * 1000 := by linarith
        rw [show ((low + high) / 2 - low) * 1000 =
          (high - low) * 1000 / 2 by ring]
        exact ceil_half_lt_ceil h1
      exact ih low ((low + high) / 2) (by omega) (by linarith) hlow
        (not_lt.mp hmid)
    · exact ⟨hlow, high, hle, by linarith [not_lt.mp hw], hhigh⟩

lemma bisect_bracket (f : ℝ → ℝ) (x low high : ℝ) (hle : low ≤ high)
    (hlow : f low ≤ x) (hhigh : x ≤ f high) :
    f (bisect f x low high) ≤ x ∧
    ∃ hi, bisect f x low high ≤ hi ∧
      hi ≤ bisect f x low high + 1 / 1000 ∧ x ≤ f hi :=
  bisect_spec_aux f x ⌈(high - low) * 1000⌉₊ low high le_rfl hle hlow hhigh

lemma bisect_arm (c : Curve) (s x : ℝ) (hsT : s ≤ c.totalSupply)
    (hx : 0 ≤ x) (hxT : x ≤ calculate_cost c s c.totalSupply) :
    calculate_cost c s
        (s + bisect (fun d => calculate_cost c s (s + d)) x 0
          (c.totalSupply - s)) ≤ x ∧
    ∃ hi,
      bisect (fun d => calculate_cost c s (s + d)) x 0
        (c.totalSupply - s) ≤ hi ∧
      hi ≤ bisect (fun d => calculate_cost c s (s + d)) x 0
        (c.totalSupply - s) + 1 / 1000 ∧
      x ≤ calculate_cost c s (s + hi) := by
  have h0le : (0 : ℝ) ≤ c.totalSupply - s := by linarith
  have hf0 : calculate_cost c s (s + 0) ≤ x := by
    rw [add_zero, cost_self]
    exact hx
  have hfh : x ≤ calculate_cost c s (s + (c.totalSupply - s)) := by
    rw [show s + (c.totalSupply - s) = c.totalSupply by ring]
    exact hxT
  exact bisect_bracket (fun d => calculate_cost c s (s + d)) x 0
    (c.totalSupply - s) h0le hf0 hfh

/-- Closed-form inversion of the linear cost integral is exact. -/
lemma cost_calcTokensOut_linear (c : Curve) (k multiplier : ℝ)
    (hc : c.shape = .linear k multiplier) (hk : 0 < k) (hm : 0 < multiplier)
    (s x : ℝ) (hx : 0 ≤ x) :
    calculate_cost c s (s + calcTokensOut c s x) = x := by
  simp only [calculate_cost, calcTokensOut, hc]
  have hR : 0 ≤ 2 * x * multiplier / k + s ^ 2 := by positivity
  rw [show s + (Real.sqrt (2 * x * multiplier / k + s ^ 2) - s) =
    Real.sqrt (2 * x * multiplier / k + s ^ 2) by ring]
  rw [Real.sq_sqrt hR]
  rw [show k / (2 * multiplier) * (2 * x * multiplier / k + s ^ 2 - s ^ 2)
      = x by field_simp; ring]
  exact max_eq_right hx

/-- Closed-form inversion of the exponential cost integral is exact. -/
lemma cost_calcTokensOut_exp (c : Curve) (a b : ℝ)
    (hc : c.shape = .exponential a b) (ha : 0 < a) (hb : 0 ≤ b)
    (s x : ℝ) (hx : 0 ≤ x) :
    calculate_cost c s (s + calcTokensOut c s x) = x := by
  simp only [calculate_cost, calcTokensOut, hc]
  by_cases hb0 : b = 0
  · rw [if_pos hb0, if_pos hb0]
    rw [show s + x / a - s = x / a by ring]
    field_simp
  · rw [if_neg hb0, if_neg hb0]
    have hbpos : 0 < b := lt_of_le_of_ne hb (Ne.symm hb0)
    have harg : 0 < x * b / a + Real.exp (b * s) :=
      add_pos_of_nonneg_of_pos (by positivity) (Real.exp_pos _)
    rw [show b * (s + (Real.log (x * b / a + Real.exp (b * s)) / b - s)) =
      Real.log (x * b / a + Real.exp (b * s)) by field_simp; ring]
    rw [Real.exp_log harg]
    field_simp
    ring

/-- The inversion round-trip property, per variant: exact for the
closed-form Linear and Exponential inverses; for the bisection-based
Polynomial and Logarithmic inverses the returned token amount
under-approximates (its cost is at most `x`) and lies within the tolerance
`0.001` of a token amount whose cost is at least `x`. -/
def InversionRoundTrip (c : Curve) (s x : ℝ) : Prop :=
  match c.shape with
  | .linear _ _ | .exponential _ _ =>
      calculate_cost c s (s + calcTokensOut c s x) = x
  | .polynomial _ | .logarithmic _ _ =>
      calculate_cost c s (s + calcTokensOut c s x) ≤ x ∧
      ∃ hi, calcTokensOut c s x ≤ hi ∧
        hi ≤ calcTokensOut c s x + 1 / 1000 ∧
        x ≤ calculate_cost c s (s + hi)

/-- C4: inversion round-trip — `calculateCost(s, s + tokensOut(x)) = x`
exactly for Linear and Exponential; for Polynomial and Logarithmic the
bisection result costs at most `x` and is within 0.001 token units of an
amount costing at least `x`. -/
theorem inversion_roundtrip_thm (c : Curve) (hv : Valid c) (s x : ℝ)
    (hs : 0 ≤ s) (hsT : s ≤ c.totalSupply) (hx : 0 ≤ x)
    (hxT : x ≤ calculate_cost c s c.totalSupply) :
    InversionRoundTrip c s x := by
  obtain ⟨-, -, hshape⟩ := hv
  unfold InversionRoundTrip
  cases hc : c.shape with
  | linear k multiplier =>
    rw [hc] at hshape
    exact cost_calcTokensOut_linear c k multiplier hc hshape.1 hshape.2 s x hx
  | exponential a b =>
    rw [hc] at hshape
    exact cost_calcTokensOut_exp c a b hc hshape.1 hshape.2 s x hx
  | polynomial coefficients =>
    simp only [calcTokensOut, hc]
    exact bisect_arm c s x hsT hx hxT
  | logarithmic a b =>
    simp only [calcTokensOut, hc]
    exact bisect_arm c s x hsT hx hxT

/-- Per-variant closeness of the buy-then-sell round trip: what the sell
returns (`calculate_cost(s, s + t)` for the `t` tokens bought) recovers `x`
exactly for the closed-form Linear and Exponential inverses, and for the
bisection-based Polynomial and Logarithmic inverses the bought amount `t` is
within 0.001 tokens of an amount whose cost is at least `x`. -/
def RoundTripApprox (c : Curve) (s t x : ℝ) : Prop :=
  match c.shape with
  | .linear _ _ | .exponential _ _ => calculate_cost c s (s + t) = x
  | .polynomial _ | .logarithmic _ _ =>
      ∃ hi, t ≤ hi ∧ hi ≤ t + 1 / 1000 ∧ x ≤ calculate_cost c s (s + hi)

lemma buy_ok_of_noclamp (c : Curve) (st : CurveState)
    (hg : st.graduated = false) (x : ℝ)
    (hnoclamp :
      st.tokensSold + calcTokensOut c st.tokensSold x ≤ c.totalSupply)
    (hnograd : st.virtualRaised + x < c.graduationThreshold)
    (htpos : 0 < calcTokensOut c st.tokensSold x) :
    buy c st x = (.ok (calcTokensOut c st.tokensSold x,
        x / calcTokensOut c st.tokensSold x),
      ⟨st.tokensSold + calcTokensOut c st.tokensSold x,
        st.virtualRaised + x, false⟩) := by
  simp only [buy, hg, Bool.false_eq_true, if_false]
  rw [if_neg (not_lt.mpr hnoclamp), if_neg (not_lt.mpr hnoclamp),
    if_pos htpos, if_neg (not_le.mpr hnograd)]

lemma sell_all_back (c : Curve) (s r t : ℝ) (hs : 0 ≤ s) (ht : 0 < t) :
    sell c ⟨s + t, r, false⟩ t =
      (.ok (calculate_cost c s (s + t), calculate_cost c s (s + t) / t),
        ⟨s, r - calculate_cost c s (s + t), false⟩) := by
  simp only [sell, Bool.false_eq_true, if_false]
  rw [if_neg (not_le.mpr ht), if_neg (not_lt.mpr (by linarith)),
    if_pos ht, add_sub_cancel_right]

/-- C5 amended: on a non-graduated curve, when `buy(x)` is not clamped by
the supply bound, does not graduate the curve, and yields a strictly
positive token output, then immediately selling those tokens succeeds and
returns an amount that never exceeds `x`, equals `x` exactly for Linear and
Exponential, and is within the bisection tolerance (0.001 tokens' worth of
cost) of `x` for Polynomial and Logarithmic. -/
theorem buy_sell_roundtrip_amended (c : Curve) (hv : Valid c)
    (st : CurveState) (hg : st.graduated = false) (hs : 0 ≤ st.tokensSold)
    (hsT : st.tokensSold ≤ c.totalSupply) (x : ℝ) (hx : 0 < x)
    (hxT : x ≤ calculate_cost c st.tokensSold c.totalSupply)
    (hnoclamp :
      st.tokensSold + calcTokensOut c st.tokensSold x ≤ c.totalSupply)
    (hnograd : st.virtualRaised + x < c.graduationThreshold)
    (htpos : 0 < calcTokensOut c st.tokensSold x) :
    buy c st x = (.ok (calcTokensOut c st.tokensSold x,
        x / calcTokensOut c st.tokensSold x),
      ⟨st.tokensSold + calcTokensOut c st.tokensSold x,
        st.virtualRaised + x, false⟩) ∧
    sell c ⟨st.tokensSold + calcTokensOut c st.tokensSold x,
        st.virtualRaised + x, false⟩ (calcTokensOut c st.tokensSold x) =
      (.ok (calculate_cost c st.tokensSold
          (st.tokensSold + calcTokensOut c st.tokensSold x),
        calculate_cost c st.tokensSold
            (st.tokensSold + calcTokensOut c st.tokensSold x) /
          calcTokensOut c st.tokensSold x),
        ⟨st.tokensSold, st.virtualRaised + x -
          calculate_cost c st.tokensSold
            (st.tokensSold + calcTokensOut c st.tokensSold x), false⟩) ∧
    calculate_cost c st.tokensSold
      (st.tokensSold + calcTokensOut c st.tokensSold x) ≤ x ∧
    RoundTripApprox c st.tokensSold (calcTokensOut c st.tokensSold x) x := by
  obtain ⟨-, -, hshape⟩ := hv
  refine ⟨buy_ok_of_noclamp c st hg x hnoclamp hnograd htpos,
    sell_all_back c st.tokensSold (st.virtualRaised + x)
      (calcTokensOut c st.tokensSold x) hs htpos, ?_, ?_⟩
  · cases hc : c.shape with
    | linear k multiplier =>
      rw [hc] at hshape
      exact le_of_eq (cost_calcTokensOut_linear c k multiplier hc hshape.1
        hshape.2 st.tokensSold x hx.le)
    | exponential a b =>
      rw [hc] at hshape
      exact le_of_eq (cost_calcTokensOut_exp c a b hc hshape.1 hshape.2
        st.tokensSold x hx.le)
    | polynomial coefficients =>
      simp only [calcTokensOut, hc]
      exact (bisect_arm c st.tokensSold x hsT hx.le hxT).1
    | logarithmic a b =>
      simp only [calcTokensOut, hc]
      exact (bisect_arm c st.tokensSold x hsT hx.le hxT).1
  · unfold RoundTripApprox
    cases hc : c.shape with
    | linear k multiplier =>
      rw [hc] at hshape
      exact cost_calcTokensOut_linear c k multiplier hc hshape.1 hshape.2
        st.tokensSold x hx.le
    | exponential a b =>
      rw [hc] at hshape
      exact cost_calcTokensOut_exp c a b hc hshape.1 hshape.2
        st.tokensSold x hx.le
    | polynomial coefficients =>
      simp only [calcTokensOut, hc]
      exact (bisect_arm c st.tokensSold x hsT hx.le hxT).2
    | logarithmic a b =>
      simp only [calcTokensOut, hc]
      exact (bisect_arm c st.tokensSold x hsT hx.le hxT).2

/-- Tiny polynomial curve `P(s) = 1 + 0.1 s` with `totalSupply = 1/500`:
small enough that the bisection interval collapses after one halving. -/
def CpolyTiny : Curve := ⟨.polynomial [1, 1 / 10], 1 / 500, 1000⟩

lemma cpoly_tokens_zero : calcTokensOut CpolyTiny 0 (1 / 4000) = 0 := by
  simp only [calcTokensOut, CpolyTiny]
  rw [bisect, dif_pos (by norm_num)]
  rw [if_neg (not_lt.mpr (le_trans (by
    simp only [calculate_cost, CpolyTiny, polyCost]
    refine le_trans ?_ (le_max_right _ _)
    norm_num) (le_refl _)))]
  rw [bisect, dif_neg (by norm_num)]

/-- C5 counterexample: on the tiny polynomial curve a buy of `x = 1/4000`
succeeds without clamping or graduation but yields zero tokens (the
bisection answer underflows the 0.001 tolerance), and immediately selling
the tokens bought (zero) raises `InvalidAmountError` instead of returning
an amount close to `x`. -/
theorem buy_sell_zero_tokens_cex :
    buy CpolyTiny ⟨0, 0, false⟩ (1 / 4000) =
      (.ok (0, 0), ⟨0, 1 / 4000, false⟩) ∧
    sell CpolyTiny ⟨0, 1 / 4000, false⟩ 0 =
      (.error .invalidAmountErr, ⟨0, 1 / 4000, false⟩) := by
  constructor
  · simp only [buy, cpoly_tokens_zero]
    norm_num [CpolyTiny]
  · simp only [sell]
    norm_num

/-- Witness for C5 at the concrete linear curve, fresh state, spend 1. -/
theorem buy_sell_roundtrip_witness :
    buy Clin ⟨0, 0, false⟩ 1 = (.ok (calcTokensOut Clin 0 1,
        1 / calcTokensOut Clin 0 1),
      ⟨0 + calcTokensOut Clin 0 1, 0 + 1, false⟩) ∧
    sell Clin ⟨0 + calcTokensOut Clin 0 1, 0 + 1, false⟩
        (calcTokensOut Clin 0 1) =
      (.ok (calculate_cost Clin 0 (0 + calcTokensOut Clin 0 1),
        calculate_cost Clin 0 (0 + calcTokensOut Clin 0 1) /
          calcTokensOut Clin 0 1),
        ⟨0, 0 + 1 - calculate_cost Clin 0 (0 + calcTokensOut Clin 0 1),
          false⟩) ∧
    calculate_cost Clin 0 (0 + calcTokensOut Clin 0 1) ≤ 1 ∧
    RoundTripApprox Clin 0 (calcTokensOut Clin 0 1) 1 := by
  have hct : calcTokensOut Clin 0 1 = 1 := by
    simp only [calcTokensOut, Clin]
    rw [show (2 : ℝ) * 1 * 1 / 2 + 0 ^ 2 = 1 by norm_num, Real.sqrt_one]
    norm_num
  exact buy_sell_roundtrip_amended Clin Clin_valid ⟨0, 0, false⟩ rfl
    le_rfl (by norm_num [Clin]) 1 one_pos
    (by
      simp only [calculate_cost, Clin]
      rw [show (2 : ℝ) / (2 * 1) * ((100 : ℝ) ^ 2 - 0 ^ 2) = 10000 by
        norm_num]
      rw [max_eq_right (by norm_num)]
      norm_num)
    (by rw [hct]; norm_num [Clin]) (by norm_num [Clin])
    (by rw [hct]; norm_num)

/-- Witness for C4 at the concrete linear curve, supply 0, spend 1. -/
theorem inversion_roundtrip_witness : InversionRoundTrip Clin 0 1 :=
  inversion_roundtrip_thm Clin Clin_valid 0 1 le_rfl (by norm_num [Clin])
    (by norm_num)
    (by
      simp only [calculate_cost, Clin]
      rw [show (2 : ℝ) / (2 * 1) * ((100 : ℝ) ^ 2 - 0 ^ 2) = 10000 by
        norm_num]
      rw [max_eq_right (by norm_num)]
      norm_num)

lemma sellStep_trades (c : Curve) (p : SimParams) (i : ℕ) (acc : SimAcc)
    (size : ℝ) (tr : Trade)
    (h : (sellStep c p i acc size).trades = acc.trades ++ [tr]) :
    tr.tradeType = .sellTrade ∧
    tr.slippage =
      if 0 < get_price c acc.st.tokensSold then
        (get_price c acc.st.tokensSold - tr.price) /
          get_price c acc.st.tokensSold
      else 0 := by
  simp only [sellStep] at h
  split_ifs at h with h1 h2
  · split at h
    · simp at h
    · rename_i vo ap st' heq
      simp only [List.append_cancel_left_eq, List.cons.injEq, and_true] at h
      subst h
      exact ⟨rfl, by rw [if_pos h1]⟩
  · simp at h
  · simp at h

lemma buyStep_trades (c : Curve) (p : SimParams) (i : ℕ) (acc : SimAcc)
    (size : ℝ) (tr : Trade)
    (h : (buyStep c p i acc size).trades = acc.trades ++ [tr]) :
    tr.tradeType = .buyTrade ∧
    tr.slippage =
      if 0 < get_price c acc.st.tokensSold then
        (tr.price - get_price c acc.st.tokensSold) /
          get_price c acc.st.tokensSold
      else 0 := by
  simp only [buyStep] at h
  split at h
  · simp at h
  · rename_i tko ap st' heq
    simp only [List.append_cancel_left_eq, List.cons.injEq, and_true] at h
    subst h
    exact ⟨rfl, rfl⟩

/-- C7 amended: every trade the simulation loop body records stores, as its
slippage, the signed relative deviation from the pre-trade quoted price
`get_price(tokens_sold)` — computed as `(executed - expected) / expected`
for buys but as `(expected - executed) / expected` for sells (with 0 when
the quote is not positive). -/
theorem slippage_formula_amended (c : Curve) (p : SimParams) (d : Draw)
    (i : ℕ) (acc : SimAcc) (tr : Trade)
    (h : (simStep c p d i acc).trades = acc.trades ++ [tr]) :
    (tr.tradeType = .buyTrade →
      tr.slippage =
        if 0 < get_price c acc.st.tokensSold then
          (tr.price - get_price c acc.st.tokensSold) /
            get_price c acc.st.tokensSold
        else 0) ∧
    (tr.tradeType = .sellTrade →
      tr.slippage =
        if 0 < get_price c acc.st.tokensSold then
          (get_price c acc.st.tokensSold - tr.price) /
            get_price c acc.st.tokensSold
        else 0) := by
  by_cases hsell : d.sellRoll < p.sellProbability ∧ 0 < acc.st.tokensSold
  · simp only [simStep] at h
    rw [if_pos hsell] at h
    obtain ⟨hty, hsl⟩ := sellStep_trades c p i acc _ tr h
    refine ⟨fun hbuy => ?_, fun _ => hsl⟩
    rw [hty] at hbuy
    exact absurd hbuy (by simp)
  · simp only [simStep] at h
    rw [if_neg hsell] at h
    obtain ⟨hty, hsl⟩ := buyStep_trades c p i acc _ tr h
    refine ⟨fun _ => hsl, fun hsel => ?_⟩
    rw [hty] at hsel
    exact absurd hsel (by simp)

lemma gp_clin_one : get_price Clin 1 = 2 := by
  simp only [get_price, Clin]
  norm_num

lemma sell_clin_concrete :
    sell Clin ⟨1, 1, false⟩ (1 / 10) =
      (.ok (19 / 100, 19 / 10), ⟨9 / 10, 81 / 100, false⟩) := by
  have hcost : calculate_cost Clin (1 - 1 / 10) 1 = 19 / 100 := by
    simp only [calculate_cost, Clin]
    rw [max_eq_right (by norm_num)]
    norm_num
  simp only [sell]
  rw [if_neg (by simp), if_neg (by norm_num : ¬ ((1 : ℝ) / 10 ≤ 0)),
    if_neg (by norm_num : ¬ ((1 : ℝ) < 1 / 10)), hcost,
    if_pos (by norm_num : (0 : ℝ) < 1 / 10)]
  norm_num

lemma simStep_concrete_eval :
    simStep Clin ⟨10, 0, 1, 0, 10, 0⟩ ⟨0, 1, 0⟩ 0 ⟨⟨1, 1, false⟩, [], 0, 0⟩ =
      ⟨⟨9 / 10, 81 / 100, false⟩,
        [⟨.sellTrade, 19 / 100, 1 / 10, 19 / 10, 1 / 20, 9 / 10, 81 / 100,
          0⟩], 19 / 100, 0⟩ := by
  unfold simStep
  rw [if_pos (by norm_num : (0 : ℝ) < 1 ∧ (0 : ℝ) < 1)]
  unfold sellStep
  rw [gp_clin_one]
  rw [if_pos (by norm_num : (0 : ℝ) < 2)]
  rw [if_neg (by norm_num : ¬ ((1 : ℝ) < 0))]
  rw [show max (0.1 : ℝ) |(10 : ℝ) + 0 * 0| = 10 by
    rw [show (10 : ℝ) + 0 * 0 = 10 by ring, abs_of_pos (by norm_num)]
    exact max_eq_right (by norm_num)]
  rw [show min ((10 : ℝ) / 2) (1 * 0.1) = 1 / 10 by
    rw [min_eq_right (by norm_num)]
    norm_num]
  rw [if_pos (by norm_num : (0 : ℝ) < 1 / 10)]
  rw [sell_clin_concrete]
  simp only []
  norm_num [SimAcc.mk.injEq, Trade.mk.injEq, CurveState.mk.injEq]

/-- C7 counterexample: the concrete simulation step above records a sell
trade with stored slippage `1/20`, while the claimed uniform formula
`(executed - expected) / expected` evaluates to `-1/20` at the pre-trade
quote `get_price(1) = 2`. -/
theorem sell_slippage_sign_cex :
    (simStep Clin ⟨10, 0, 1, 0, 10, 0⟩ ⟨0, 1, 0⟩ 0
        ⟨⟨1, 1, false⟩, [], 0, 0⟩).trades =
      [⟨.sellTrade, 19 / 100, 1 / 10, 19 / 10, 1 / 20, 9 / 10, 81 / 100,
        0⟩] ∧
    ((19 : ℝ) / 10 - get_price Clin 1) / get_price Clin 1 = -(1 / 20) ∧
    ((1 : ℝ) / 20) ≠ -(1 / 20) := by
  refine ⟨by rw [simStep_concrete_eval], ?_, by norm_num⟩
  rw [gp_clin_one]
  norm_num

/-- Witness for C7 at the concrete simulation step. -/
theorem slippage_formula_witness :
    (Trade.tradeType ⟨.sellTrade, 19 / 100, 1 / 10, 19 / 10, 1 / 20, 9 / 10,
        81 / 100, 0⟩ = .buyTrade →
      Trade.slippage ⟨.sellTrade, 19 / 100, 1 / 10, 19 / 10, 1 / 20, 9 / 10,
          81 / 100, 0⟩ =
        if 0 < get_price Clin 1 then
          (Trade.price ⟨.sellTrade, 19 / 100, 1 / 10, 19 / 10, 1 / 20,
              9 / 10, 81 / 100, 0⟩ - get_price Clin 1) / get_price Clin 1
        else 0) ∧
    (Trade.tradeType ⟨.sellTrade, 19 / 100, 1 / 10, 19 / 10, 1 / 20, 9 / 10,
        81 / 100, 0⟩ = .sellTrade →
      Trade.slippage ⟨.sellTrade, 19 / 100, 1 / 10, 19 / 10, 1 / 20, 9 / 10,
          81 / 100, 0⟩ =
        if 0 < get_price Clin 1 then
          (get_price Clin 1 - Trade.price ⟨.sellTrade, 19 / 100, 1 / 10,
              19 / 10, 1 / 20, 9 / 10, 81 / 100, 0⟩) / get_price Clin 1
        else 0) :=
  slippage_formula_amended Clin ⟨10, 0, 1, 0, 10, 0⟩ ⟨0, 1, 0⟩ 0
    ⟨⟨1, 1, false⟩, [], 0, 0⟩ _ (by rw [simStep_concrete_eval]; rfl)

lemma filterMap_if_eq_map_filter {α β : Type _} (p : α → Prop)
    [DecidablePred p] (g : α → β) (l : List α) :
    (l.filterMap fun t => if p t then some (g t) else none) =
      (l.filter fun t => decide (p t)).map g := by
  induction l with
  | nil => rfl
  | cons a l ih =>
    by_cases h : p a <;>
      simp [List.filterMap_cons, List.filter_cons, h, ih]

/-- C9 counterexample: on an empty trade list `calculate_metrics` returns
`market_efficiency = 0`, not the claimed default of 1. -/
theorem market_efficiency_empty_cex :
    (calculate_metrics ⟨[], false, 0, 0, 0, 0, 0⟩).marketEfficiency = 0 ∧
    (0 : ℝ) ≠ 1 := by
  exact ⟨rfl, by norm_num⟩

/-- C9 amended: `calculate_metrics` returns `market_efficiency` equal to
`1 - mean(|actualReturnFromFirstPrice - recordedSlippage|)` over the trades
with positive currency amount, defaulting to 1 when the (non-empty) trade
list contains no such trade; on an empty trade list it returns 0 instead. -/
theorem market_efficiency_amended (r : SimulationResult) :
    (r.trades = [] → (calculate_metrics r).marketEfficiency = 0) ∧
    (r.trades ≠ [] →
      (calculate_metrics r).marketEfficiency = marketEfficiencySpec r) := by
  obtain ⟨trades, graduated, fp, fts, fvr, tv, tc⟩ := r
  cases trades with
  | nil => exact ⟨fun _ => rfl, fun hne => absurd rfl hne⟩
  | cons t0 rest =>
    refine ⟨fun hcontra => by simp at hcontra, fun _ => ?_⟩
    show (if _ ≠ ([] : List ℝ) then _ else _) = _
    rw [show ((t0 :: rest).filterMap fun t =>
        if 0 < t.virtualAmount then
          some |(if 0 < ((t0 :: rest).map (·.price)).headD 0 then
              (t.price - ((t0 :: rest).map (·.price)).headD 0) /
                ((t0 :: rest).map (·.price)).headD 0
            else 0) - t.slippage|
        else none) =
      ((t0 :: rest).filter fun t => decide (0 < t.virtualAmount)).map
        (fun t => |(if 0 < ((t0 :: rest).map (·.price)).headD 0 then
            (t.price - ((t0 :: rest).map (·.price)).headD 0) /
              ((t0 :: rest).map (·.price)).headD 0
          else 0) - t.slippage|) from
      filterMap_if_eq_map_filter _ _ _]
    unfold marketEfficiencySpec
    by_cases hp :
        (t0 :: rest).filter (fun t => decide (0 < t.virtualAmount)) = []
    · rw [if_pos hp, if_neg (by simp [hp])]
    · rw [if_neg hp, if_pos (by simp [hp])]

/-- Witness for C9: an empty result and a one-buy result. -/
theorem market_efficiency_witness :
    (calculate_metrics ⟨[], true, 2, 3, 4, 5, 6⟩).marketEfficiency = 0 ∧
    (calculate_metrics
        ⟨[⟨.buyTrade, 1, 1, 2, 0, 1, 1, 0⟩], false, 2, 1, 1, 1, 0⟩
      ).marketEfficiency =
      marketEfficiencySpec
        ⟨[⟨.buyTrade, 1, 1, 2, 0, 1, 1, 0⟩], false, 2, 1, 1, 1, 0⟩ :=
  ⟨(market_efficiency_amended ⟨[], true, 2, 3, 4, 5, 6⟩).1 rfl,
    (market_efficiency_amended
      ⟨[⟨.buyTrade, 1, 1, 2, 0, 1, 1, 0⟩], false, 2, 1, 1, 1, 0⟩).2
      (by simp)⟩

end

end CurveModel
